import Mathlib

/-!
# Verification of the React-Wizard component

A shallow embedding of the multi-step wizard component found in
`src/Wizard.tsx`, `src/WizardContext.tsx` (sources named via index.ts) and
`src/types.ts`, together with proofs about its navigation contract.

The component is a React function component.  We embed its behaviour as an
explicit state machine:

* the construction-time props become the structure `WizardProps`;
* the two `useState` cells (`data`, `step`) become the structure
  `WizardState`;
* each of the five exposed operations (`nextStep`, `prevStep`, `toStep`,
  `updateData`, `resetData`) becomes one constructor of `WizardOp`, and its
  body is translated verbatim into `applyOp`, which returns the new state
  together with the list of `onStepChange` invocations it performs and the
  list of DOM `CustomEvent` notifications dispatched by the tracking
  `useEffect` after the re-render the operation causes;
* JavaScript records (`Partial<T>` objects) are association lists with
  string keys; the spread `{...prev, ...newData}` becomes `spreadMerge`;
* `Array.prototype.indexOf` (which returns -1 when the element is missing)
  becomes the Int-valued `jsIndexOf`.

React semantics captured by the model (standard, documented behaviour of a
browser-hosted component; `typeof window !== 'undefined'` is assumed true):

* the tracking `useEffect` in Wizard.tsx has dependency array
  `[step, steps, trackSteps]`, and `steps` is `Object.keys(stepMapping)` —
  a *fresh array object every render* — so the dependencies never compare
  equal under `Object.is` and the effect fires after *every* committed
  render, including the mount render and renders caused by data-only
  updates;
* a setState call whose argument is `Object.is`-equal to the current value
  does not commit a re-render (React bails out and fires no effects); so a
  navigation to the step the wizard is already on dispatches no event;
* `updateData` builds a fresh object with a spread, so its setState always
  commits; reference identity of the data object against the original
  `initialData` object is tracked by the boolean field `dataIsInitialRef`
  (the caller-supplied `initialData` is treated as one stable object).
-/

namespace ReactWizard

/-- A JavaScript record (a `Partial<T>` object): an association list from
string keys to values, keys unique, in insertion order. -/
abbrev Rec (α : Type) := List (String × α)

/-- `obj[k]` on a JavaScript record: the value stored at key `k`, if any. -/
def recLookup (k : String) : List (String × α) → Option α
  | [] => none
  | p :: ps => if p.1 = k then some p.2 else recLookup k ps

/-- `k in obj`: whether the record has key `k`. -/
def recHasKey (k : String) (r : List (String × α)) : Bool :=
  (recLookup k r).isSome

/-- The object spread `{...prev, ...newData}`: every key of `newData`
takes its value from `newData`, all other keys of `prev` survive. -/
def spreadMerge (prev newData : Rec α) : Rec α :=
  prev.filter (fun p => !(recHasKey p.1 newData)) ++ newData

/-- `Array.prototype.findIndex`-style search returning the 0-based position
of the first occurrence of `x`. -/
def findIdx (x : String) : List String → Option Nat
  | [] => none
  | a :: as => if a = x then some 0 else (findIdx x as).map (fun n => n + 1)

/-- `Array.prototype.indexOf`: the index of the first occurrence of `x`,
or `-1` when `x` is absent. -/
def jsIndexOf (x : String) (l : List String) : Int :=
  match findIdx x l with
  | some n => (n : Int)
  | none => -1

/-- The construction-time props of the `Wizard` component
(`WizardProps<T, S>` in types.ts).  `stepMapping` keeps its definition
order and maps each step id to the name of its step-view component;
`onStepChange : Bool` records whether the optional callback was supplied
(the `if (onStepChange)` guard in the source); `dataTestId` models the
optional `data-testid` prop. -/
structure WizardProps (α : Type) where
  stepMapping : List (String × String)
  initialData : Option (Rec α)
  trackSteps : Bool
  onStepChange : Bool
  dataTestId : Option String
  deriving DecidableEq

/-- `const steps = Object.keys(stepMapping)`: the step ids in definition
order. -/
def steps (p : WizardProps α) : List String :=
  p.stepMapping.map Prod.fst

/-- The value of `initialData` after the destructuring default
`initialData = {}`. -/
def initialDataValue (p : WizardProps α) : Rec α :=
  p.initialData.getD []

/-- The two `useState` cells of the component: the current step id and the
data record.  `dataIsInitialRef` is model bookkeeping: it is true exactly
when the current data object is reference-identical to the caller-supplied
`initialData` object (used to decide whether a `setData` inside
`resetData()` commits a re-render). -/
structure WizardState (α : Type) where
  step : String
  data : Rec α
  dataIsInitialRef : Bool
  deriving DecidableEq

/-- The state right after mount:
`useState(initialData)` and `useState(steps[0])`.  (For an empty
`stepMapping`, `steps[0]` is `undefined`, modelled by `""`.) -/
def initState (p : WizardProps α) : WizardState α :=
  { step := (steps p).getD 0 ""
    data := initialDataValue p
    dataIsInitialRef := true }

/-- One invocation of the `onStepChange` callback, with its three
arguments `(stepId, data, stepIndex)`. -/
structure OnStepChangeCall (α : Type) where
  stepId : String
  data : Rec α
  stepIndex : Int
  deriving DecidableEq

/-- One DOM `CustomEvent` dispatched by the tracking `useEffect`:
name `wizard:step-change`, detail `{ step, stepIndex }`. -/
structure StepChangeEvent where
  name : String
  step : String
  stepIndex : Int
  deriving DecidableEq

/-- The five operations the wizard exposes to its step-views. -/
inductive WizardOp (α : Type) where
  | nextStep
  | prevStep
  | toStep (stepId : String)
  | updateData (newData : Rec α)
  | resetData (newData : Option (Rec α))
  deriving DecidableEq

/-- The event the tracking effect dispatches when it runs while the wizard
is in state `s`: the effect closure reads the committed `step` and computes
`steps.indexOf(step)`. -/
def stepChangeEventFor (p : WizardProps α) (s : WizardState α) : StepChangeEvent :=
  { name := "wizard:step-change"
    step := s.step
    stepIndex := jsIndexOf s.step (steps p) }

/-- The notifications dispatched after an operation: if the operation
committed a re-render (`commit`) the effect runs (its `steps` dependency is
a fresh array every render), and dispatches one event iff `trackSteps`. -/
def emittedEvents (p : WizardProps α) (s2 : WizardState α) (commit : Prop)
    [Decidable commit] : List StepChangeEvent :=
  if commit ∧ p.trackSteps = true then [stepChangeEventFor p s2] else []

/-- The result of running one operation: the state after it, the
`onStepChange` invocations it made, and the `wizard:step-change` events
dispatched as a consequence. -/
structure OpResult (α : Type) where
  state : WizardState α
  calls : List (OnStepChangeCall α)
  events : List StepChangeEvent
  deriving DecidableEq

/-- The five operation bodies of Wizard.tsx, translated clause by clause.

* `nextStep`: `currentIndex = steps.indexOf(step)`; when
  `currentIndex + 1 < steps.length`, set step to `steps[currentIndex+1]`
  and call `onStepChange(nextStepId, data, currentIndex + 1)` if supplied.
* `prevStep`: symmetric with `currentIndex - 1 >= 0`.
* `toStep(stepId)`: guarded by `steps.includes(stepId)`; calls
  `onStepChange(stepId, data, steps.indexOf(stepId))` if supplied.
* `updateData(newData)`: `setData(prev => ({...prev, ...newData}))`; no
  callback; the fresh object always commits a re-render, so the tracking
  effect fires even though the step did not change.
* `resetData(newData?)`: `resetToData = newData || initialData` (a record
  argument is always truthy); sets data and `steps[0]`; calls
  `onStepChange(steps[0], resetToData, 0)` if supplied.

A `setStep` with the current step value does not commit (React bailout),
hence the `≠ s.step` conditions on the dispatched events. -/
def applyOp (p : WizardProps α) (s : WizardState α) : WizardOp α → OpResult α
  | .nextStep =>
      let currentIndex := jsIndexOf s.step (steps p)
      if currentIndex + 1 < ((steps p).length : Int) then
        let nextStepId := (steps p).getD (currentIndex + 1).toNat ""
        let s2 := { s with step := nextStepId }
        { state := s2
          calls := if p.onStepChange then [⟨nextStepId, s.data, currentIndex + 1⟩] else []
          events := emittedEvents p s2 (nextStepId ≠ s.step) }
      else
        { state := s, calls := [], events := [] }
  | .prevStep =>
      let currentIndex := jsIndexOf s.step (steps p)
      if 0 ≤ currentIndex - 1 then
        let prevStepId := (steps p).getD (currentIndex - 1).toNat ""
        let s2 := { s with step := prevStepId }
        { state := s2
          calls := if p.onStepChange then [⟨prevStepId, s.data, currentIndex - 1⟩] else []
          events := emittedEvents p s2 (prevStepId ≠ s.step) }
      else
        { state := s, calls := [], events := [] }
  | .toStep stepId =>
      if stepId ∈ steps p then
        let s2 := { s with step := stepId }
        { state := s2
          calls := if p.onStepChange then [⟨stepId, s.data, jsIndexOf stepId (steps p)⟩] else []
          events := emittedEvents p s2 (stepId ≠ s.step) }
      else
        { state := s, calls := [], events := [] }
  | .updateData newData =>
      let s2 : WizardState α :=
        { step := s.step, data := spreadMerge s.data newData, dataIsInitialRef := false }
      { state := s2, calls := [], events := emittedEvents p s2 True }
  | .resetData newData =>
      let resetToData := match newData with
        | some nd => nd
        | none => initialDataValue p
      let first := (steps p).getD 0 ""
      let dataChanged : Bool := match newData with
        | some _ => true
        | none => !s.dataIsInitialRef
      let s2 : WizardState α :=
        { step := first, data := resetToData, dataIsInitialRef := newData.isNone }
      { state := s2
        calls := if p.onStepChange then [⟨first, resetToData, 0⟩] else []
        events := emittedEvents p s2 (first ≠ s.step ∨ dataChanged = true) }

/-- Run a sequence of operations (each one a separate user interaction, so
a re-render separates consecutive operations), collecting the callback
calls and dispatched events in order. -/
def runOps (p : WizardProps α) (s : WizardState α) : List (WizardOp α) → OpResult α
  | [] => { state := s, calls := [], events := [] }
  | op :: ops =>
      let r := applyOp p s op
      let rest := runOps p r.state ops
      { state := rest.state
        calls := r.calls ++ rest.calls
        events := r.events ++ rest.events }

/-- The events dispatched by the mount render: the first render always
commits, the effect runs, and it dispatches one event iff `trackSteps`. -/
def mountEvents (p : WizardProps α) : List StepChangeEvent :=
  if p.trackSteps then [stepChangeEventFor p (initState p)] else []

/-- All `wizard:step-change` events dispatched over a whole run: the mount
emission followed by the per-operation emissions. -/
def wizardEvents (p : WizardProps α) (ops : List (WizardOp α)) : List StepChangeEvent :=
  mountEvents p ++ (runOps p (initState p) ops).events

/-- Whether an operation, run from state `s`, is a successful step
transition via one of the three navigation functions (its bounds guard
passes). -/
def isNavTransition (p : WizardProps α) (s : WizardState α) : WizardOp α → Bool
  | .nextStep => decide (jsIndexOf s.step (steps p) + 1 < ((steps p).length : Int))
  | .prevStep => decide (0 ≤ jsIndexOf s.step (steps p) - 1)
  | .toStep stepId => decide (stepId ∈ steps p)
  | .updateData _ => false
  | .resetData _ => false

/-- The number of successful navigation transitions in a run. -/
def countTransitions (p : WizardProps α) : WizardState α → List (WizardOp α) → Nat
  | _, [] => 0
  | s, op :: ops =>
      (if isNavTransition p s op then 1 else 0) + countTransitions p (applyOp p s op).state ops

/-- The broadcast value computed by the `useMemo` in Wizard.tsx and placed
on the context (the data fields of `WizardContextType`; the five operation
closures are modelled by `applyOp`). -/
structure WizardContextValue (α : Type) where
  data : Rec α
  step : String
  stepIndex : Int
  totalSteps : Nat
  trackSteps : Bool
  deriving DecidableEq

/-- The `contextValue` object the Wizard passes to its provider. -/
def contextValue (p : WizardProps α) (s : WizardState α) : WizardContextValue α :=
  { data := s.data
    step := s.step
    stepIndex := jsIndexOf s.step (steps p)
    totalSteps := (steps p).length
    trackSteps := p.trackSteps }

/-- The `useWizardContext` hook of WizardContext.tsx: `useContext` yields
the nearest provider value, or `undefined` when the reader is not a
descendant of a `WizardProvider` (`none` here); the hook throws
`useWizardContext must be used within a Wizard component` in that case and
returns the context value otherwise. -/
def useWizardContext (ctx : Option (WizardContextValue α)) :
    Except String (WizardContextValue α) :=
  match ctx with
  | none => Except.error "useWizardContext must be used within a Wizard component"
  | some v => Except.ok v

/-- `parentTestId = props['data-testid'] || 'wizard'` (an empty string is
falsy in JavaScript). -/
def parentTestId (p : WizardProps α) : String :=
  match p.dataTestId with
  | some t => if t = "" then "wizard" else t
  | none => "wizard"

/-- What `CurrentStepComponent` receives when it is rendered: its props
and the provider value wrapping it. -/
structure StepViewRender (α : Type) where
  component : String
  providerValue : WizardContextValue α
  data : Rec α
  step : String
  stepIndex : Int
  totalSteps : Nat
  trackSteps : Bool
  testId : String
  deriving DecidableEq

/-- The rendered output of the Wizard: either the fallback
`<div data-testid={parentTestId}-not-found>Step not found</div>` or the
provider-wrapped current step component. -/
inductive RenderResult (α : Type) where
  | notFound (testId : String) (text : String)
  | view (r : StepViewRender α)
  deriving DecidableEq

/-- The render path of Wizard.tsx:
`CurrentStepComponent = stepMapping[step]`; when it is `undefined` the
fallback placeholder is returned, otherwise the component is rendered
inside the `WizardProvider`, with the props listed in the JSX. -/
def renderWizard (p : WizardProps α) (s : WizardState α) : RenderResult α :=
  match recLookup s.step p.stepMapping with
  | none => .notFound (parentTestId p ++ "-not-found") "Step not found"
  | some c =>
      .view
        { component := c
          providerValue := contextValue p s
          data := s.data
          step := s.step
          stepIndex := jsIndexOf s.step (steps p)
          totalSteps := (steps p).length
          trackSteps := p.trackSteps
          testId := parentTestId p ++ "-step-" ++ s.step }

/-! ## Helper lemmas about the JavaScript array and record primitives -/

theorem findIdx_eq_none_iff (x : String) (l : List String) :
    findIdx x l = none ↔ x ∉ l := by
  induction l with
  | nil => simp [findIdx]
  | cons a as ih =>
      by_cases hax : a = x
      · subst hax
        simp [findIdx]
      · simp only [findIdx, if_neg hax, Option.map_eq_none', List.mem_cons]
        rw [ih]
        constructor
        · intro h hx
          rcases hx with hx | hx
          · exact hax hx.symm
          · exact h hx
        · intro h hx
          exact h (Or.inr hx)

theorem findIdx_isSome_of_mem {x : String} {l : List String} (h : x ∈ l) :
    (findIdx x l).isSome := by
  rcases ho : findIdx x l with _ | n
  · exact absurd h ((findIdx_eq_none_iff x l).mp ho)
  · rfl

theorem findIdx_lt_length {x : String} {l : List String} {n : Nat}
    (h : findIdx x l = some n) : n < l.length := by
  induction l generalizing n with
  | nil => simp [findIdx] at h
  | cons a as ih =>
      by_cases hax : a = x
      · simp only [findIdx, if_pos hax, Option.some.injEq] at h
        simp only [List.length_cons]
        omega
      · simp only [findIdx, if_neg hax, Option.map_eq_some'] at h
        rcases h with ⟨m, hm, hn⟩
        have := ih hm
        simp only [List.length_cons]
        omega

theorem findIdx_head (l : List String) (h : l ≠ []) :
    findIdx (l.head h) l = some 0 := by
  cases l with
  | nil => exact absurd rfl h
  | cons a as => simp [findIdx]

theorem findIdx_append_cons (x : String) (l₁ l₂ : List String) (h : x ∉ l₁) :
    findIdx x (l₁ ++ x :: l₂) = some l₁.length := by
  induction l₁ with
  | nil => simp [findIdx]
  | cons a as ih =>
      have hax : a ≠ x := fun hc => h (hc ▸ List.mem_cons_self a as)
      have has : x ∉ as := fun hc => h (List.mem_cons_of_mem a hc)
      simp [findIdx, hax, ih has]

theorem jsIndexOf_of_findIdx {x : String} {l : List String} {n : Nat}
    (h : findIdx x l = some n) : jsIndexOf x l = n := by
  simp [jsIndexOf, h]

theorem jsIndexOf_of_not_mem {x : String} {l : List String} (h : x ∉ l) :
    jsIndexOf x l = -1 := by
  simp [jsIndexOf, (findIdx_eq_none_iff x l).mpr h]

theorem jsIndexOf_mem_bounds {x : String} {l : List String} (h : x ∈ l) :
    0 ≤ jsIndexOf x l ∧ jsIndexOf x l < (l.length : Int) := by
  rcases ho : findIdx x l with _ | n
  · exact absurd h ((findIdx_eq_none_iff x l).mp ho)
  · rw [jsIndexOf_of_findIdx ho]
    have := findIdx_lt_length ho
    omega

theorem getD_append_length (l₁ : List String) (x : String) (l₂ : List String)
    (d : String) : (l₁ ++ x :: l₂).getD l₁.length d = x := by
  induction l₁ with
  | nil => rfl
  | cons a as ih => simpa using ih

theorem getD_append_length_succ (l₁ : List String) (x y : String)
    (l₂ : List String) (d : String) :
    (l₁ ++ x :: y :: l₂).getD (l₁.length + 1) d = y := by
  induction l₁ with
  | nil => rfl
  | cons a as ih => simpa using ih

theorem getD_mem_of_lt {l : List String} {n : Nat} (h : n < l.length)
    (d : String) : l.getD n d ∈ l := by
  induction l generalizing n with
  | nil => simp at h
  | cons a as ih =>
      cases n with
      | zero => simp [List.getD]
      | succ m =>
          have hm : m < as.length := by simpa using h
          simpa [List.getD] using Or.inr (ih hm)

theorem getD_zero_eq_head (l : List String) (h : l ≠ []) (d : String) :
    l.getD 0 d = l.head h := by
  cases l with
  | nil => exact absurd rfl h
  | cons a as => rfl

theorem not_mem_of_nodup_append_cons {l₁ : List String} {x : String}
    {l₂ : List String} (h : (l₁ ++ x :: l₂).Nodup) : x ∉ l₁ := by
  intro hx
  exact (List.nodup_append.mp h).2.2 hx (List.mem_cons_self x l₂)

theorem recLookup_spreadMerge (k : String) (prev nd : Rec α) :
    recLookup k (spreadMerge prev nd) =
      match recLookup k nd with
      | some v => some v
      | none => recLookup k prev := by
  induction prev with
  | nil =>
      simp only [spreadMerge, List.filter_nil, List.nil_append]
      rcases recLookup k nd with _ | v <;> rfl
  | cons p ps ih =>
      cases hkeep : recHasKey p.1 nd with
      | true =>
          have hdrop : spreadMerge (p :: ps) nd = spreadMerge ps nd := by
            simp [spreadMerge, List.filter_cons, hkeep]
          rw [hdrop, ih]
          by_cases hpk : p.1 = k
          · subst hpk
            have hsome : (recLookup p.1 nd).isSome = true := by
              simpa [recHasKey] using hkeep
            rcases Option.isSome_iff_exists.mp hsome with ⟨v, hv⟩
            simp [hv]
          · simp [recLookup, hpk]
      | false =>
          have hkept : spreadMerge (p :: ps) nd = p :: spreadMerge ps nd := by
            simp [spreadMerge, List.filter_cons, hkeep]
          rw [hkept]
          by_cases hpk : p.1 = k
          · subst hpk
            have hnone : recLookup p.1 nd = none := by
              rcases ho : recLookup p.1 nd with _ | v
              · rfl
              · exfalso
                simp [recHasKey, ho] at hkeep
            simp [recLookup, hnone]
          · simp only [recLookup, if_neg hpk]
            exact ih

/-! ## Characterization of the operation branches -/

theorem applyOp_nextStep_pos (p : WizardProps α) (s : WizardState α)
    (hc : jsIndexOf s.step (steps p) + 1 < ((steps p).length : Int)) :
    applyOp p s .nextStep =
      { state := { s with step := (steps p).getD (jsIndexOf s.step (steps p) + 1).toNat "" }
        calls := if p.onStepChange then
            [⟨(steps p).getD (jsIndexOf s.step (steps p) + 1).toNat "", s.data,
              jsIndexOf s.step (steps p) + 1⟩]
          else []
        events := emittedEvents p
          { s with step := (steps p).getD (jsIndexOf s.step (steps p) + 1).toNat "" }
          ((steps p).getD (jsIndexOf s.step (steps p) + 1).toNat "" ≠ s.step) } := by
  simp only [applyOp]
  rw [if_pos hc]

theorem applyOp_nextStep_neg (p : WizardProps α) (s : WizardState α)
    (hc : ¬ (jsIndexOf s.step (steps p) + 1 < ((steps p).length : Int))) :
    applyOp p s .nextStep = { state := s, calls := [], events := [] } := by
  simp only [applyOp]
  rw [if_neg hc]

theorem applyOp_prevStep_pos (p : WizardProps α) (s : WizardState α)
    (hc : 0 ≤ jsIndexOf s.step (steps p) - 1) :
    applyOp p s .prevStep =
      { state := { s with step := (steps p).getD (jsIndexOf s.step (steps p) - 1).toNat "" }
        calls := if p.onStepChange then
            [⟨(steps p).getD (jsIndexOf s.step (steps p) - 1).toNat "", s.data,
              jsIndexOf s.step (steps p) - 1⟩]
          else []
        events := emittedEvents p
          { s with step := (steps p).getD (jsIndexOf s.step (steps p) - 1).toNat "" }
          ((steps p).getD (jsIndexOf s.step (steps p) - 1).toNat "" ≠ s.step) } := by
  simp only [applyOp]
  rw [if_pos hc]

theorem applyOp_prevStep_neg (p : WizardProps α) (s : WizardState α)
    (hc : ¬ (0 ≤ jsIndexOf s.step (steps p) - 1)) :
    applyOp p s .prevStep = { state := s, calls := [], events := [] } := by
  simp only [applyOp]
  rw [if_neg hc]

theorem applyOp_toStep_pos (p : WizardProps α) (s : WizardState α)
    {stepId : String} (hc : stepId ∈ steps p) :
    applyOp p s (.toStep stepId) =
      { state := { s with step := stepId }
        calls := if p.onStepChange then
            [⟨stepId, s.data, jsIndexOf stepId (steps p)⟩]
          else []
        events := emittedEvents p { s with step := stepId } (stepId ≠ s.step) } := by
  simp only [applyOp]
  rw [if_pos hc]

theorem applyOp_toStep_neg (p : WizardProps α) (s : WizardState α)
    {stepId : String} (hc : stepId ∉ steps p) :
    applyOp p s (.toStep stepId) = { state := s, calls := [], events := [] } := by
  simp only [applyOp]
  rw [if_neg hc]

/-- The three-step mapping of the spec scenarios
(`{a, b, c}`, `initialData = {}`, `trackSteps = true`, a callback
supplied), over integer-valued data. -/
def pABC : WizardProps Int :=
  { stepMapping := [("a", "StepA"), ("b", "StepB"), ("c", "StepC")]
    initialData := none
    trackSteps := true
    onStepChange := true
    dataTestId := none }

/-! ## The claims -/

/-- C7: For every StepMapping with at least one key, the wizard's initial
state has step equal to the first key of StepMapping in definition order,
stepIndex equal to 0, and the data record seeded from the caller-supplied
initialData (the empty record when initialData is omitted). -/
theorem C7_initial_state (α : Type) (p : WizardProps α) (h : steps p ≠ []) :
    (initState p).step = (steps p).head h ∧
    jsIndexOf (initState p).step (steps p) = 0 ∧
    (initState p).data = initialDataValue p ∧
    (p.initialData = none → (initState p).data = []) := by
  have hstep : (initState p).step = (steps p).head h :=
    getD_zero_eq_head (steps p) h ""
  refine ⟨hstep, ?_, rfl, ?_⟩
  · rw [hstep]
    simpa using jsIndexOf_of_findIdx (findIdx_head (steps p) h)
  · intro hnone
    simp [initState, initialDataValue, hnone]

/-- Witness for C7 at the concrete mapping `{a, b, c}` with omitted
initialData. -/
theorem C7_initial_state_witness :
    (initState pABC).step = "a" ∧
    jsIndexOf (initState pABC).step (steps pABC) = 0 ∧
    (initState pABC).data = initialDataValue pABC ∧
    (initState pABC).data = [] := by
  have h : steps pABC ≠ [] := by decide
  obtain ⟨h1, h2, h3, h4⟩ := C7_initial_state Int pABC h
  exact ⟨by rw [h1]; rfl, h2, h3, h4 rfl⟩

/-- C8: Reading the broadcast value (useWizardContext) from a component
that is not a descendant of an active wizard broadcast scope (context
`none`) raises a diagnostic fault immediately at read time, while reading
it from within an active scope (context `some v`) returns the context
value without fault. -/
theorem C8_context_read_guard (α : Type) (v : WizardContextValue α) :
    useWizardContext (none : Option (WizardContextValue α)) =
      Except.error "useWizardContext must be used within a Wizard component" ∧
    useWizardContext (some v) = Except.ok v :=
  ⟨rfl, rfl⟩

/-- C9: When no step-view is mapped to the current step key, the wizard
renders the fallback "not found" placeholder instead of the step-view,
without raising a fault (`renderWizard` is a total function into rendered
states); the `Iff` makes this the only error-signaling path: the fallback
is rendered exactly when the lookup fails, and a successful lookup renders
the provider-wrapped step-view. -/
theorem C9_render_fallback (α : Type) (p : WizardProps α) (s : WizardState α) :
    (renderWizard p s =
        RenderResult.notFound (parentTestId p ++ "-not-found") "Step not found"
      ↔ recLookup s.step p.stepMapping = none) ∧
    (∀ c, recLookup s.step p.stepMapping = some c →
      renderWizard p s = RenderResult.view
        { component := c
          providerValue := contextValue p s
          data := s.data
          step := s.step
          stepIndex := jsIndexOf s.step (steps p)
          totalSteps := (steps p).length
          trackSteps := p.trackSteps
          testId := parentTestId p ++ "-step-" ++ s.step }) := by
  constructor
  · rcases ho : recLookup s.step p.stepMapping with _ | c
    · simp [renderWizard, ho]
    · simp [renderWizard, ho]
  · intro c hc
    simp [renderWizard, hc]

/-- Witness for C9: with mapping `{a, b, c}`, a state on the unmapped step
`zz` renders the fallback, and the initial state renders the `a`
step-view. -/
theorem C9_render_fallback_witness :
    renderWizard pABC { step := "zz", data := [], dataIsInitialRef := true } =
      RenderResult.notFound "wizard-not-found" "Step not found" ∧
    renderWizard pABC (initState pABC) = RenderResult.view
      { component := "StepA"
        providerValue := contextValue pABC (initState pABC)
        data := []
        step := "a"
        stepIndex := 0
        totalSteps := 3
        trackSteps := true
        testId := "wizard-step-a" } := by
  have h1 := (C9_render_fallback Int pABC
    { step := "zz", data := [], dataIsInitialRef := true }).1.mpr (by decide)
  have h2 := (C9_render_fallback Int pABC (initState pABC)).2 "StepA" (by decide)
  exact ⟨by rw [h1]; decide, by rw [h2]; decide⟩

/-- C10: Calling toStep(id) with id equal to the current step is treated
as a successful transition: because the guard tests only membership of id
in StepMapping's keys, onStepChange (when supplied) is invoked with the
unchanged step id, the current data record, and the unchanged step index,
even though the wizard state does not change (and, the state being
unchanged, no re-render commits, so no tracking event is dispatched). -/
theorem C10_toStep_current (α : Type) (p : WizardProps α) (s : WizardState α)
    (hmem : s.step ∈ steps p) (hcb : p.onStepChange = true) :
    applyOp p s (.toStep s.step) =
      { state := s
        calls := [⟨s.step, s.data, jsIndexOf s.step (steps p)⟩]
        events := [] } := by
  rw [applyOp_toStep_pos p s hmem, hcb]
  have hself : ({ s with step := s.step } : WizardState α) = s := rfl
  rw [hself]
  simp [emittedEvents]

/-- Witness for C10: in `{a, b, c}` at the initial step, `toStep('a')`
leaves the state unchanged yet fires the callback `('a', {}, 0)`. -/
theorem C10_toStep_current_witness :
    applyOp pABC (initState pABC) (.toStep (initState pABC).step) =
      { state := initState pABC
        calls := [⟨"a", [], 0⟩]
        events := [] } := by
  have h := C10_toStep_current Int pABC (initState pABC) (by decide) rfl
  rw [h]
  decide

/-- C5: For every current data record and every partial record,
updateData(partial) shallow-merges partial into the current data record
(keys in partial overwrite, keys absent from partial are preserved),
leaves the current step unchanged, and fires no onStepChange callback;
consequently updateData(\x7ba: 1\x7d) followed by updateData(\x7bb: 2\x7d)
yields a data record containing both a: 1 and b: 2. -/
theorem C5_updateData_shallow_merge (α : Type) (p : WizardProps α)
    (s : WizardState α) (nd : Rec α) :
    ((applyOp p s (.updateData nd)).state.step = s.step) ∧
    ((applyOp p s (.updateData nd)).calls = []) ∧
    (∀ k v, recLookup k nd = some v →
      recLookup k (applyOp p s (.updateData nd)).state.data = some v) ∧
    (∀ k, recLookup k nd = none →
      recLookup k (applyOp p s (.updateData nd)).state.data = recLookup k s.data) ∧
    (recLookup "a"
        (applyOp pABC
          (applyOp pABC (initState pABC) (.updateData [("a", 1)])).state
          (.updateData [("b", 2)])).state.data = some 1 ∧
      recLookup "b"
        (applyOp pABC
          (applyOp pABC (initState pABC) (.updateData [("a", 1)])).state
          (.updateData [("b", 2)])).state.data = some 2) := by
  have hdata : (applyOp p s (.updateData nd)).state.data = spreadMerge s.data nd := rfl
  refine ⟨rfl, rfl, ?_, ?_, by decide, by decide⟩
  · intro k v hv
    rw [hdata, recLookup_spreadMerge, hv]
  · intro k hk
    rw [hdata, recLookup_spreadMerge, hk]

/-- Witness for C5: with data `{}` and `updateData({a: 1})`, key `a` is
overwritten to 1 and the absent key `zz` keeps its old (absent) value. -/
theorem C5_updateData_shallow_merge_witness :
    recLookup "a" (applyOp pABC (initState pABC)
      (.updateData [("a", 1)])).state.data = some 1 ∧
    recLookup "zz" (applyOp pABC (initState pABC)
      (.updateData [("a", 1)])).state.data = recLookup "zz" (initState pABC).data := by
  have h := C5_updateData_shallow_merge Int pABC (initState pABC) [("a", 1)]
  exact ⟨h.2.2.1 "a" 1 (by decide), h.2.2.2.1 "zz" (by decide)⟩

/-- C4: For every current data record, resetData(partial) replaces the
data record with partial when given, and with the original caller-supplied
initialData when called with no argument — by value of the original
initialData and independently of the state `s` the wizard reached in the
meantime, so not by reference to any interim data object — resets step to
the first key of StepMapping, and fires onStepChange (here: supplied) with
the new first step, the reset data, and index 0. -/
theorem C4_resetData (α : Type) (p : WizardProps α) (s : WizardState α)
    (h : steps p ≠ []) (hcb : p.onStepChange = true) :
    (∀ nd : Rec α,
      (applyOp p s (.resetData (some nd))).state.data = nd ∧
      (applyOp p s (.resetData (some nd))).state.step = (steps p).head h ∧
      (applyOp p s (.resetData (some nd))).calls = [⟨(steps p).head h, nd, 0⟩]) ∧
    ((applyOp p s (.resetData none)).state.data = initialDataValue p ∧
      (applyOp p s (.resetData none)).state.step = (steps p).head h ∧
      (applyOp p s (.resetData none)).calls =
        [⟨(steps p).head h, initialDataValue p, 0⟩]) := by
  have hfirst : (steps p).getD 0 "" = (steps p).head h :=
    getD_zero_eq_head (steps p) h ""
  constructor
  · intro nd
    refine ⟨rfl, hfirst, ?_⟩
    have hcalls : (applyOp p s (.resetData (some nd))).calls =
        (if p.onStepChange = true then
          [({ stepId := (steps p).getD 0 "", data := nd, stepIndex := 0 } :
            OnStepChangeCall α)]
        else []) := rfl
    rw [hcalls, hcb, hfirst]
    simp
  · refine ⟨rfl, hfirst, ?_⟩
    have hcalls : (applyOp p s (.resetData none)).calls =
        (if p.onStepChange = true then
          [({ stepId := (steps p).getD 0 "", data := initialDataValue p,
              stepIndex := 0 } : OnStepChangeCall α)]
        else []) := rfl
    rw [hcalls, hcb, hfirst]
    simp

/-- Witness for C4: in `{a, b, c}`, from an interim state on step `c` with
interim data `{x: 1}`, `resetData({x: 9})` installs `{x: 9}` and
`resetData()` restores the original (empty) initialData; both reset to
step `a` and fire the callback with index 0. -/
theorem C4_resetData_witness :
    (applyOp pABC { step := "c", data := [("x", 1)], dataIsInitialRef := false }
      (.resetData (some [("x", 9)]))).state.data = [("x", 9)] ∧
    (applyOp pABC { step := "c", data := [("x", 1)], dataIsInitialRef := false }
      (.resetData (some [("x", 9)]))).state.step = "a" ∧
    (applyOp pABC { step := "c", data := [("x", 1)], dataIsInitialRef := false }
      (.resetData (some [("x", 9)]))).calls = [⟨"a", [("x", 9)], 0⟩] ∧
    (applyOp pABC { step := "c", data := [("x", 1)], dataIsInitialRef := false }
      (.resetData none)).state.data = [] ∧
    (applyOp pABC { step := "c", data := [("x", 1)], dataIsInitialRef := false }
      (.resetData none)).state.step = "a" ∧
    (applyOp pABC { step := "c", data := [("x", 1)], dataIsInitialRef := false }
      (.resetData none)).calls = [⟨"a", [], 0⟩] := by
  have h := C4_resetData Int pABC
    { step := "c", data := [("x", 1)], dataIsInitialRef := false } (by decide) rfl
  obtain ⟨hsome, hnone⟩ := h
  obtain ⟨h1, h2, h3⟩ := hsome [("x", 9)]
  obtain ⟨h4, h5, h6⟩ := hnone
  exact ⟨h1, by rw [h2]; rfl, by rw [h3]; decide, h4, by rw [h5]; rfl, by rw [h6]; decide⟩

/-- C2: For every wizard state, out-of-range navigation is silently
ignored as an atomic no-op: nextStep called at the last key (the mapping
has no duplicate keys, as Object.keys guarantees), prevStep called at the
first key, and toStep called with an id not among StepMapping's keys each
return the unchanged state (hence unchanged step, stepIndex and data),
invoke no onStepChange callback and dispatch no event; `applyOp` being a
total function, no fault is raised. -/
theorem C2_out_of_range_noop (α : Type) (p : WizardProps α) (s : WizardState α) :
    (∀ l₁, (steps p).Nodup → steps p = l₁ ++ [s.step] →
      applyOp p s .nextStep = { state := s, calls := [], events := [] }) ∧
    (∀ rest, steps p = s.step :: rest →
      applyOp p s .prevStep = { state := s, calls := [], events := [] }) ∧
    (∀ stepId, stepId ∉ steps p →
      applyOp p s (.toStep stepId) = { state := s, calls := [], events := [] }) := by
  refine ⟨?_, ?_, ?_⟩
  · intro l₁ hnd hdec
    have hx : s.step ∉ l₁ := not_mem_of_nodup_append_cons (hdec ▸ hnd)
    have hfi : findIdx s.step (steps p) = some l₁.length := by
      rw [hdec]
      exact findIdx_append_cons _ _ _ hx
    have hj : jsIndexOf s.step (steps p) = l₁.length := jsIndexOf_of_findIdx hfi
    have hlen : (steps p).length = l₁.length + 1 := by
      rw [hdec]
      simp
    exact applyOp_nextStep_neg p s (by rw [hj, hlen]; push_cast; omega)
  · intro rest hdec
    have hfi : findIdx s.step (steps p) = some 0 := by
      rw [hdec]
      simp [findIdx]
    have hj : jsIndexOf s.step (steps p) = 0 := by
      simpa using jsIndexOf_of_findIdx hfi
    exact applyOp_prevStep_neg p s (by rw [hj]; omega)
  · intro stepId hmem
    exact applyOp_toStep_neg p s hmem

/-- Witness for C2: in `{a, b, c}`, nextStep at `c`, prevStep at `a`, and
toStep('zz') are all exact no-ops. -/
theorem C2_out_of_range_noop_witness :
    applyOp pABC { step := "c", data := [], dataIsInitialRef := true } .nextStep =
      { state := { step := "c", data := [], dataIsInitialRef := true },
        calls := [], events := [] } ∧
    applyOp pABC (initState pABC) .prevStep =
      { state := initState pABC, calls := [], events := [] } ∧
    applyOp pABC (initState pABC) (.toStep "zz") =
      { state := initState pABC, calls := [], events := [] } := by
  have hc := (C2_out_of_range_noop Int pABC
    { step := "c", data := [], dataIsInitialRef := true }).1
    ["a", "b"] (by decide) (by decide)
  have ha := (C2_out_of_range_noop Int pABC (initState pABC)).2.1
    ["b", "c"] (by decide)
  have hz := (C2_out_of_range_noop Int pABC (initState pABC)).2.2
    "zz" (by decide)
  exact ⟨hc, ha, hz⟩

/-- Every operation keeps the current step among the mapping's keys. -/
theorem step_mem_applyOp (p : WizardProps α) (s : WizardState α)
    (op : WizardOp α) (hne : steps p ≠ []) (hmem : s.step ∈ steps p) :
    (applyOp p s op).state.step ∈ steps p := by
  have hlenpos : 0 < (steps p).length := List.length_pos.mpr hne
  cases op with
  | nextStep =>
      by_cases hc : jsIndexOf s.step (steps p) + 1 < ((steps p).length : Int)
      · rw [applyOp_nextStep_pos p s hc]
        have h0 : 0 ≤ jsIndexOf s.step (steps p) := (jsIndexOf_mem_bounds hmem).1
        exact getD_mem_of_lt (by omega) ""
      · rw [applyOp_nextStep_neg p s hc]
        exact hmem
  | prevStep =>
      by_cases hc : 0 ≤ jsIndexOf s.step (steps p) - 1
      · rw [applyOp_prevStep_pos p s hc]
        have hlt : jsIndexOf s.step (steps p) < ((steps p).length : Int) :=
          (jsIndexOf_mem_bounds hmem).2
        exact getD_mem_of_lt (by omega) ""
      · rw [applyOp_prevStep_neg p s hc]
        exact hmem
  | toStep stepId =>
      by_cases hc : stepId ∈ steps p
      · rw [applyOp_toStep_pos p s hc]
        exact hc
      · rw [applyOp_toStep_neg p s hc]
        exact hmem
  | updateData nd => exact hmem
  | resetData nd => exact getD_mem_of_lt hlenpos ""

/-- C3: For every wizard instance with a nonempty StepMapping, in the
initial state and after any sequence of operations (in particular the four
navigation operations nextStep, prevStep, toStep, resetData), currentStep
is a member of the keys of StepMapping and the derived stepIndex lies in
the half-open range [0, totalSteps). -/
theorem C3_invariant (α : Type) (p : WizardProps α) (ops : List (WizardOp α))
    (h : steps p ≠ []) :
    (runOps p (initState p) ops).state.step ∈ steps p ∧
    0 ≤ jsIndexOf (runOps p (initState p) ops).state.step (steps p) ∧
    jsIndexOf (runOps p (initState p) ops).state.step (steps p) <
      ((steps p).length : Int) := by
  have hpres : ∀ (ops' : List (WizardOp α)) (s : WizardState α),
      s.step ∈ steps p → (runOps p s ops').state.step ∈ steps p := by
    intro ops'
    induction ops' with
    | nil => intro s hs; exact hs
    | cons op rest ih =>
        intro s hs
        exact ih (applyOp p s op).state (step_mem_applyOp p s op h hs)
  have hinit : (initState p).step ∈ steps p :=
    getD_mem_of_lt (List.length_pos.mpr h) ""
  have hm := hpres ops (initState p) hinit
  exact ⟨hm, (jsIndexOf_mem_bounds hm).1, (jsIndexOf_mem_bounds hm).2⟩

/-- Witness for C3 at `{a, b, c}` after a mixed operation sequence. -/
theorem C3_invariant_witness :
    (runOps pABC (initState pABC)
      [.nextStep, .updateData [("x", 1)], .toStep "c", .prevStep,
        .resetData none]).state.step ∈ steps pABC ∧
    0 ≤ jsIndexOf (runOps pABC (initState pABC)
      [.nextStep, .updateData [("x", 1)], .toStep "c", .prevStep,
        .resetData none]).state.step (steps pABC) ∧
    jsIndexOf (runOps pABC (initState pABC)
      [.nextStep, .updateData [("x", 1)], .toStep "c", .prevStep,
        .resetData none]).state.step (steps pABC) < ((steps pABC).length : Int) :=
  C3_invariant Int pABC
    [.nextStep, .updateData [("x", 1)], .toStep "c", .prevStep, .resetData none]
    (by decide)

/-- C6: Whenever the current step is not the last key (it occurs in the key
list with a successor `y`), nextStep advances currentStep to that next key
in StepMapping definition order and invokes onStepChange (here: supplied)
with the new step id, the current data record, and the new step index; in
particular, for StepMapping `{a, b, c}` starting at the first key, the
sequence nextStep(); nextStep(); nextStep() ends with step `c` and
stepIndex 2, the third call being a no-op that adds no state change, no
callback and no event beyond the first two calls. -/
theorem C6_nextStep_advances (α : Type) (p : WizardProps α) (s : WizardState α)
    (l₁ l₂ : List String) (y : String) (hnd : (steps p).Nodup)
    (hdec : steps p = l₁ ++ s.step :: y :: l₂) (hcb : p.onStepChange = true) :
    ((applyOp p s .nextStep).state.step = y ∧
      (applyOp p s .nextStep).state.data = s.data ∧
      (applyOp p s .nextStep).calls = [⟨y, s.data, (l₁.length : Int) + 1⟩]) ∧
    ((runOps pABC (initState pABC) [.nextStep, .nextStep, .nextStep]).state.step
        = "c" ∧
      jsIndexOf "c" (steps pABC) = 2 ∧
      runOps pABC (initState pABC) [.nextStep, .nextStep, .nextStep] =
        runOps pABC (initState pABC) [.nextStep, .nextStep]) := by
  have hx : s.step ∉ l₁ := not_mem_of_nodup_append_cons (hdec ▸ hnd)
  have hfi : findIdx s.step (steps p) = some l₁.length := by
    rw [hdec]
    exact findIdx_append_cons _ _ _ hx
  have hj : jsIndexOf s.step (steps p) = l₁.length := jsIndexOf_of_findIdx hfi
  have hc : jsIndexOf s.step (steps p) + 1 < ((steps p).length : Int) := by
    rw [hj, hdec]
    simp only [List.length_append, List.length_cons]
    push_cast
    omega
  have htn : (jsIndexOf s.step (steps p) + 1).toNat = l₁.length + 1 := by
    rw [hj]
    omega
  have hget : (steps p).getD (jsIndexOf s.step (steps p) + 1).toNat "" = y := by
    rw [htn, hdec]
    exact getD_append_length_succ l₁ s.step y l₂ ""
  rw [applyOp_nextStep_pos p s hc]
  refine ⟨⟨hget, rfl, ?_⟩, by decide, by decide, by decide⟩
  rw [hcb, hget, hj]
  simp

/-- Witness for C6: from the initial state of `{a, b, c}` the first
nextStep moves to `b` with callback `('b', {}, 1)`. -/
theorem C6_nextStep_advances_witness :
    (applyOp pABC (initState pABC) .nextStep).state.step = "b" ∧
    (applyOp pABC (initState pABC) .nextStep).state.data = [] ∧
    (applyOp pABC (initState pABC) .nextStep).calls = [⟨"b", [], 1⟩] := by
  have h := (C6_nextStep_advances Int pABC (initState pABC) [] ["c"] "b"
    (by decide) (by decide) rfl).1
  exact ⟨h.1, h.2.1, by rw [h.2.2]; decide⟩

/-- C1, refuted as stated: with trackSteps = true and mapping `{a, b, c}`,
(i) at mount — before any step transition has occurred — one
`wizard:step-change` notification is already dispatched (the tracking
useEffect runs after the mount render), so a run with zero transitions has
one notification; (ii) a data-only `updateData` re-render dispatches a
further notification with no transition (the effect's `steps` dependency
is a fresh array each render); (iii) `toStep('a')` at step `a` passes the
membership guard — a successful transition in the claim's sense — yet
dispatches no notification, because setting the state to its current value
commits no re-render. -/
theorem C1_claim_counterexample :
    wizardEvents pABC ([] : List (WizardOp Int)) =
      [⟨"wizard:step-change", "a", 0⟩] ∧
    countTransitions pABC (initState pABC) ([] : List (WizardOp Int)) = 0 ∧
    (wizardEvents pABC ([] : List (WizardOp Int))).length ≠
      countTransitions pABC (initState pABC) ([] : List (WizardOp Int)) ∧
    wizardEvents pABC [WizardOp.updateData [("x", 5)]] =
      [⟨"wizard:step-change", "a", 0⟩, ⟨"wizard:step-change", "a", 0⟩] ∧
    countTransitions pABC (initState pABC) [WizardOp.updateData [("x", 5)]] = 0 ∧
    isNavTransition pABC (initState pABC) (WizardOp.toStep "a") = true ∧
    (applyOp pABC (initState pABC) (WizardOp.toStep "a")).events = [] := by
  decide

/-- C1 as amended: when trackSteps is true the `wizard:step-change`
notification, with payload step and stepIndex, is dispatched after every
committed render rather than exactly on step transitions: once at mount
for the initial step; exactly once per successful navigation that changes
the step — toStep to a member id other than the current step, nextStep
below the last key, prevStep above the first key — carrying the new step
and its index; and also exactly once after every data-only updateData,
carrying the unchanged step. -/
theorem C1_tracking_amended (α : Type) (p : WizardProps α) (s : WizardState α)
    (htrack : p.trackSteps = true) :
    (mountEvents p = [⟨"wizard:step-change", (initState p).step,
        jsIndexOf (initState p).step (steps p)⟩]) ∧
    (∀ stepId, stepId ∈ steps p → stepId ≠ s.step →
      (applyOp p s (.toStep stepId)).events =
        [⟨"wizard:step-change", stepId, jsIndexOf stepId (steps p)⟩]) ∧
    (∀ l₁ y l₂, (steps p).Nodup → steps p = l₁ ++ s.step :: y :: l₂ →
      (applyOp p s .nextStep).events =
        [⟨"wizard:step-change", y, (l₁.length : Int) + 1⟩]) ∧
    (∀ l₁ y l₂, (steps p).Nodup → steps p = l₁ ++ y :: s.step :: l₂ →
      (applyOp p s .prevStep).events =
        [⟨"wizard:step-change", y, (l₁.length : Int)⟩]) ∧
    (∀ nd, (applyOp p s (.updateData nd)).events =
      [⟨"wizard:step-change", s.step, jsIndexOf s.step (steps p)⟩]) := by
  refine ⟨?_, ?_, ?_, ?_, ?_⟩
  · have hm : mountEvents p = [stepChangeEventFor p (initState p)] := by
      simp [mountEvents, htrack]
    rw [hm]
    rfl
  · intro stepId hid hne
    rw [applyOp_toStep_pos p s hid]
    show emittedEvents p { s with step := stepId } (stepId ≠ s.step) = _
    simp only [emittedEvents]
    rw [if_pos ⟨hne, htrack⟩]
    rfl
  · intro l₁ y l₂ hnd hdec
    have hx : s.step ∉ l₁ := not_mem_of_nodup_append_cons (hdec ▸ hnd)
    have hfi : findIdx s.step (steps p) = some l₁.length := by
      rw [hdec]
      exact findIdx_append_cons s.step l₁ (y :: l₂) hx
    have hj : jsIndexOf s.step (steps p) = (l₁.length : Int) :=
      jsIndexOf_of_findIdx hfi
    have hc : jsIndexOf s.step (steps p) + 1 < ((steps p).length : Int) := by
      rw [hj, hdec]
      simp only [List.length_append, List.length_cons]
      push_cast
      omega
    have htn : (jsIndexOf s.step (steps p) + 1).toNat = l₁.length + 1 := by
      rw [hj]
      omega
    have hget : (steps p).getD (jsIndexOf s.step (steps p) + 1).toNat "" = y := by
      rw [htn, hdec]
      exact getD_append_length_succ l₁ s.step y l₂ ""
    have hdec2 : steps p = (l₁ ++ [s.step]) ++ y :: l₂ := by
      rw [hdec]
      simp
    have hy : y ∉ l₁ ++ [s.step] := not_mem_of_nodup_append_cons (hdec2 ▸ hnd)
    have hfy : findIdx y (steps p) = some (l₁.length + 1) := by
      rw [hdec2]
      simpa using findIdx_append_cons y (l₁ ++ [s.step]) l₂ hy
    have hjy : jsIndexOf y (steps p) = (l₁.length : Int) + 1 := by
      rw [jsIndexOf_of_findIdx hfy]
      push_cast
      ring
    have hne : y ≠ s.step := by
      have h2 : (s.step :: y :: l₂).Nodup := (List.nodup_append.mp (hdec ▸ hnd)).2.1
      have h3 : s.step ∉ y :: l₂ := (List.nodup_cons.mp h2).1
      intro he
      apply h3
      rw [← he]
      exact List.mem_cons_self y l₂
    rw [applyOp_nextStep_pos p s hc, hget]
    show emittedEvents p { s with step := y } (y ≠ s.step) = _
    simp only [emittedEvents]
    rw [if_pos ⟨hne, htrack⟩]
    show [stepChangeEventFor p { s with step := y }] = _
    simp only [stepChangeEventFor]
    rw [hjy]
  · intro l₁ y l₂ hnd hdec
    have hdec2 : steps p = (l₁ ++ [y]) ++ s.step :: l₂ := by
      rw [hdec]
      simp
    have hx : s.step ∉ l₁ ++ [y] := not_mem_of_nodup_append_cons (hdec2 ▸ hnd)
    have hfi : findIdx s.step (steps p) = some (l₁.length + 1) := by
      rw [hdec2]
      simpa using findIdx_append_cons s.step (l₁ ++ [y]) l₂ hx
    have hj : jsIndexOf s.step (steps p) = ((l₁.length + 1 : Nat) : Int) :=
      jsIndexOf_of_findIdx hfi
    have hc : 0 ≤ jsIndexOf s.step (steps p) - 1 := by
      rw [hj]
      omega
    have htn : (jsIndexOf s.step (steps p) - 1).toNat = l₁.length := by
      rw [hj]
      omega
    have hget : (steps p).getD (jsIndexOf s.step (steps p) - 1).toNat "" = y := by
      rw [htn, hdec]
      exact getD_append_length l₁ y (s.step :: l₂) ""
    have hyx : y ∉ l₁ := not_mem_of_nodup_append_cons (hdec ▸ hnd)
    have hfy : findIdx y (steps p) = some l₁.length := by
      rw [hdec]
      exact findIdx_append_cons y l₁ (s.step :: l₂) hyx
    have hjy : jsIndexOf y (steps p) = (l₁.length : Int) :=
      jsIndexOf_of_findIdx hfy
    have hne : y ≠ s.step := by
      have h2 : (y :: s.step :: l₂).Nodup := (List.nodup_append.mp (hdec ▸ hnd)).2.1
      have h3 : y ∉ s.step :: l₂ := (List.nodup_cons.mp h2).1
      intro he
      apply h3
      rw [he]
      exact List.mem_cons_self s.step l₂
    rw [applyOp_prevStep_pos p s hc, hget]
    show emittedEvents p { s with step := y } (y ≠ s.step) = _
    simp only [emittedEvents]
    rw [if_pos ⟨hne, htrack⟩]
    show [stepChangeEventFor p { s with step := y }] = _
    simp only [stepChangeEventFor]
    rw [hjy]
  · intro nd
    show emittedEvents p
      { step := s.step, data := spreadMerge s.data nd, dataIsInitialRef := false }
      True = _
    simp only [emittedEvents]
    rw [if_pos ⟨trivial, htrack⟩]
    rfl

/-- Witness for the amended C1 at `{a, b, c}`: the mount emission, the
spec scenario toStep('b') emitting exactly `{step: 'b', stepIndex: 1}`,
one emission per successful nextStep/prevStep, and the data-only
emission. -/
theorem C1_tracking_amended_witness :
    mountEvents pABC = [⟨"wizard:step-change", "a", 0⟩] ∧
    (applyOp pABC (initState pABC) (.toStep "b")).events =
      [⟨"wizard:step-change", "b", 1⟩] ∧
    (applyOp pABC (initState pABC) .nextStep).events =
      [⟨"wizard:step-change", "b", 1⟩] ∧
    (applyOp pABC { step := "b", data := [], dataIsInitialRef := true }
      .prevStep).events = [⟨"wizard:step-change", "a", 0⟩] ∧
    (applyOp pABC (initState pABC) (.updateData [("x", 5)])).events =
      [⟨"wizard:step-change", "a", 0⟩] := by
  have h := C1_tracking_amended Int pABC (initState pABC) rfl
  have hb := C1_tracking_amended Int pABC
    { step := "b", data := [], dataIsInitialRef := true } rfl
  refine ⟨?_, ?_, ?_, ?_, ?_⟩
  · rw [h.1]
    decide
  · rw [h.2.1 "b" (by decide) (by decide)]
    decide
  · rw [h.2.2.1 [] "b" ["c"] (by decide) (by decide)]
    decide
  · rw [hb.2.2.2.1 [] "a" ["c"] (by decide) (by decide)]
    decide
  · rw [h.2.2.2.2 [("x", 5)]]
    decide

end ReactWizard
